import Mathlib

/-!
Verification of the form-normalization and notification logic of the
`autoemail` service (`src/main.py`).

The embedding below translates the program's data model and operations:

* `Form_Data.__post_init__` (the field normalizer) becomes `normalize`;
* `parse_date` becomes `parse_date`, parameterized over the external
  date parser (`dateutil.parser.parse`), whose outcome on a given string
  is either a parsed date, the dedicated parse-failure error
  (`dateutil.parser.ParserError`), or some other exception;
* `send_email` and the `/update/` endpoint `form_update` become pure
  functions returning the scheduled outbound message and HTTP response.

Raw submissions are association lists `List (String × String)` in request
iteration order; the Python `dict` built by the normalizer's comprehension
is modelled by `lowerNonEmpty`, which reproduces dict-insertion semantics
(re-inserting an existing key overwrites its value but keeps its original
position).
-/

namespace AutoEmail

/-- The components of a parsed `datetime` value that the program reads. -/
structure DateTime where
  year : Nat
  month : Nat
  day : Nat
  hour : Nat
  minute : Nat
  second : Nat
deriving DecidableEq, Repr

/-- Outcome of a call to the external date parser on one string:
a parsed date, the parser's dedicated parse-failure error
(`dateutil.parser.ParserError`), or a different exception. -/
inductive ParseOutcome where
  | ok (d : DateTime)
  | parserError
  | otherError (exc : String)
deriving DecidableEq, Repr

/-- A Python exception escaping the normalizer: a `KeyError` on a missing
control key (the spec's `MissingFieldError`), or any other exception
propagated from a callee. -/
inductive PyError where
  | keyError (k : String)
  | exc (name : String)
deriving DecidableEq, Repr

/-- One entry of the normalized `fields` list: a rendered
question/answer pair. -/
structure QA where
  question : String
  answer : String
deriving DecidableEq, Repr

/-- The normalized record built by `Form_Data.__post_init__`. -/
structure Form_Data where
  email : String
  approved : Bool
  fields : List QA
deriving DecidableEq, Repr

/-- Python's `str.lower()` on the ASCII range, applied characterwise. -/
def lowerStr (s : String) : String :=
  ⟨s.data.map Char.toLower⟩

/-- `needle`-in-`hay` substring test on character lists
(Python's `in` operator on strings). -/
def containsSub : List Char → List Char → Bool
  | [], needle => needle.isEmpty
  | c :: t, needle => needle.isPrefixOf (c :: t) || containsSub t needle

/-- Python's `needle in hay` for strings. -/
def hasSubstr (hay needle : String) : Bool :=
  containsSub hay.data needle.data

/-- The hour heuristic of `parse_date`:
`"hora" in prompt.lower() or "hour" in prompt.lower()`. -/
def hourPrompt (prompt : String) : Bool :=
  hasSubstr (lowerStr prompt) "hora" || hasSubstr (lowerStr prompt) "hour"

/-- `parse_date(prompt, timestring)` from `src/main.py`, parameterized by
the external date parser `p`.  Only the parser's dedicated parse error is
caught (returning the raw string unchanged); any other exception
propagates.  On success the value is rendered as `H:M` when the prompt
matches the hour heuristic and as `D/M/Y` otherwise, with no
zero-padding. -/
def parse_date (p : String → ParseOutcome) (prompt timestring : String) :
    Except PyError String :=
  match p timestring with
  | ParseOutcome.parserError => Except.ok timestring
  | ParseOutcome.otherError e => Except.error (PyError.exc e)
  | ParseOutcome.ok date =>
      if hourPrompt prompt then
        Except.ok (toString date.hour ++ ":" ++ toString date.minute)
      else
        Except.ok (toString date.day ++ "/" ++ toString date.month ++ "/" ++ toString date.year)

/-- Python dict insertion `d[k] = v`: overwrite the value of the first
entry with key `k` (keeping its original position) if one exists, append
otherwise. -/
def dictInsert : List (String × String) → String → String → List (String × String)
  | [], k, v => [(k, v)]
  | a :: d, k, v => if a.1 = k then (k, v) :: d else a :: dictInsert d k v

/-- One step of the dict comprehension
`{key.lower(): value for key, value in raw.items() if value != ""}`. -/
def lowerNonEmptyStep (d : List (String × String)) (kv : String × String) :
    List (String × String) :=
  if kv.2 = "" then d else dictInsert d (lowerStr kv.1) kv.2

/-- The dict comprehension of `__post_init__` line 31: lowercase every
key and drop entries whose value is the empty string, with Python dict
insertion semantics. -/
def lowerNonEmpty (raw : List (String × String)) : List (String × String) :=
  raw.foldl lowerNonEmptyStep []

/-- Python dict lookup on the association-list model. -/
def lookup? : List (String × String) → String → Option String
  | [], _ => none
  | kv :: d, k => if kv.1 = k then some kv.2 else lookup? d k

/-- The `excluded_keys` list of `__post_init__`. -/
def excludedKeys : List String :=
  ["email address", "reviewed", "timestamp"]

/-- The `fields` list comprehension of `__post_init__` line 39: apply
`parse_date` to every retained entry, left to right, propagating the
first exception. -/
def buildFields (p : String → ParseOutcome) :
    List (String × String) → Except PyError (List QA)
  | [] => Except.ok []
  | kv :: t =>
    match parse_date p kv.1 kv.2 with
    | Except.error e => Except.error e
    | Except.ok a =>
      match buildFields p t with
      | Except.error e => Except.error e
      | Except.ok rest => Except.ok (QA.mk kv.1 a :: rest)

/-- `Form_Data.__post_init__`: build the lowered non-empty dict, read the
`email address` and `reviewed` control keys (raising `KeyError` when
absent), derive `approved`, and build `fields` from the non-excluded
entries. -/
def normalize (p : String → ParseOutcome) (raw : List (String × String)) :
    Except PyError Form_Data :=
  match lookup? (lowerNonEmpty raw) "email address" with
  | none => Except.error (PyError.keyError "email address")
  | some email =>
    match lookup? (lowerNonEmpty raw) "reviewed" with
    | none => Except.error (PyError.keyError "reviewed")
    | some reviewed =>
      match buildFields p ((lowerNonEmpty raw).filter
          (fun kv => kv.1 ∉ excludedKeys)) with
      | Except.error e => Except.error e
      | Except.ok fields =>
        Except.ok (Form_Data.mk email (lowerStr reviewed == "approved") fields)

/-- The value a successful normalization reads for control key `k`: the
value of the last entry of `raw` whose key lowercases to `k` and whose
value is non-empty (`none` when no such entry exists). -/
def lastValueFor (raw : List (String × String)) (k : String) : Option String :=
  raw.foldl
    (fun acc kv =>
      if kv.2 ≠ "" ∧ lowerStr kv.1 = k then some kv.2 else acc)
    none

/-- Keep the first occurrence of every element, in order. -/
def firstDedup (l : List String) : List String :=
  l.foldl (fun acc x => if x ∈ acc then acc else acc ++ [x]) []

/-- String of all decimal digits test (non-empty). -/
def allDigits (s : String) : Bool :=
  !(s.data.isEmpty) && s.data.all Char.isDigit

/-- Numeric value of a decimal digit character. -/
def digitVal (c : Char) : Nat :=
  c.toNat - 48

/-- ISO-style parse of `YYYY-MM-DD` or `YYYY-MM-DDTHH:MM:SS`. -/
def isoParse (s : String) : Option DateTime :=
  match s.data with
  | [y1, y2, y3, y4, '-', m1, m2, '-', d1, d2] =>
    if [y1, y2, y3, y4, m1, m2, d1, d2].all Char.isDigit then
      let y := ((digitVal y1 * 10 + digitVal y2) * 10 + digitVal y3) * 10 + digitVal y4
      let m := digitVal m1 * 10 + digitVal m2
      let d := digitVal d1 * 10 + digitVal d2
      if 1 ≤ m ∧ m ≤ 12 ∧ 1 ≤ d ∧ d ≤ 31 then
        some (DateTime.mk y m d 0 0 0)
      else none
    else none
  | [y1, y2, y3, y4, '-', m1, m2, '-', d1, d2, 'T', h1, h2, ':', n1, n2, ':', s1, s2] =>
    if [y1, y2, y3, y4, m1, m2, d1, d2, h1, h2, n1, n2, s1, s2].all Char.isDigit then
      let y := ((digitVal y1 * 10 + digitVal y2) * 10 + digitVal y3) * 10 + digitVal y4
      let m := digitVal m1 * 10 + digitVal m2
      let d := digitVal d1 * 10 + digitVal d2
      let hh := digitVal h1 * 10 + digitVal h2
      let nn := digitVal n1 * 10 + digitVal n2
      let ss := digitVal s1 * 10 + digitVal s2
      if 1 ≤ m ∧ m ≤ 12 ∧ 1 ≤ d ∧ d ≤ 31 ∧ hh ≤ 23 ∧ nn ≤ 59 ∧ ss ≤ 59 then
        some (DateTime.mk y m d hh nn ss)
      else none
    else none
  | _ => none

/-- Modelled from the spec: the external best-effort date parser
(`dateutil.parser.parse`), an external collaborator whose code is not in
this repository, restricted to the behaviors the spec records.  ISO
strings `YYYY-MM-DD` and `YYYY-MM-DDTHH:MM:SS` parse to the
corresponding date/time, with absent time components defaulting to zero;
non-date-like strings such as `"seven"` fail with the parser's dedicated
parse error; an all-digit numeral of 20 or more digits exceeds the
parser's machine-integer range and raises a different exception
(`OverflowError`) rather than the parse error. -/
def dateutilSpec (s : String) : ParseOutcome :=
  if allDigits s && decide (20 ≤ s.length) then
    ParseOutcome.otherError "OverflowError"
  else
    match isoParse s with
    | some d => ParseOutcome.ok d
    | none => ParseOutcome.parserError

/-- The message built by `send_email`. -/
structure MessageSchema where
  subject : String
  recipients : List String
  bodyQuestions : List QA
  bodyApproved : Bool
  subtypeHtml : Bool
deriving DecidableEq, Repr

/-- One task handed to `background_tasks.add_task`: the message plus the
template name passed to `fm.send_message`. -/
structure ScheduledTask where
  message : MessageSchema
  template_name : String
deriving DecidableEq, Repr

/-- `send_email` from `src/main.py`: build the `MessageSchema` (fixed
subject, single recipient, template body made of the fields and the
approved flag, HTML subtype) and schedule exactly one background send
with template `email_template.html`. -/
def send_email (fd : Form_Data) : ScheduledTask :=
  ScheduledTask.mk
    (MessageSchema.mk "Fastapi mail module" [fd.email] fd.fields fd.approved true)
    "email_template.html"

/-- The HTTP response returned by the `/update/` endpoint. -/
structure HttpResponse where
  status_code : Nat
  body_message : String
deriving DecidableEq, Repr

/-- The `/update/` endpoint `form_update`: normalize the raw submission
(any exception propagates to the framework), schedule the single email
send, and return HTTP 200 with body message `email has been sent`. -/
def form_update (p : String → ParseOutcome) (raw : List (String × String)) :
    Except PyError (HttpResponse × List ScheduledTask) :=
  match normalize p raw with
  | Except.error e => Except.error e
  | Except.ok fd =>
    Except.ok (HttpResponse.mk 200 "email has been sent", [send_email fd])

instance {ε α : Type} [DecidableEq ε] [DecidableEq α] : DecidableEq (Except ε α) :=
  fun a b =>
    match a, b with
    | Except.ok x, Except.ok y =>
      if h : x = y then isTrue (by rw [h]) else isFalse (by intro hc; cases hc; exact h rfl)
    | Except.error x, Except.error y =>
      if h : x = y then isTrue (by rw [h]) else isFalse (by intro hc; cases hc; exact h rfl)
    | Except.ok _, Except.error _ => isFalse (by intro hc; cases hc)
    | Except.error _, Except.ok _ => isFalse (by intro hc; cases hc)

theorem char_toNat_ofNat {n : Nat} (h : n.isValidChar) : (Char.ofNat n).toNat = n := by
  rw [Char.ofNat, dif_pos h]
  simp [Char.ofNatAux, Char.toNat, UInt32.toNat]

theorem toLower_toLower (c : Char) : c.toLower.toLower = c.toLower := by
  simp only [Char.toLower]
  by_cases h : c.toNat ≥ 65 ∧ c.toNat ≤ 90
  · rw [if_pos h]
    have hv : (c.toNat + 32).isValidChar := Or.inl (by omega)
    have ht : (Char.ofNat (c.toNat + 32)).toNat = c.toNat + 32 := char_toNat_ofNat hv
    rw [if_neg]
    rw [ht]
    omega
  · rw [if_neg h, if_neg h]

theorem lowerStr_idem (s : String) : lowerStr (lowerStr s) = lowerStr s := by
  have h : (s.data.map Char.toLower).map Char.toLower = s.data.map Char.toLower := by
    rw [List.map_map]
    exact List.map_congr_left fun a _ => toLower_toLower a
  exact congrArg String.mk h

theorem lookup_dictInsert_self (d : List (String × String)) (k v : String) :
    lookup? (dictInsert d k v) k = some v := by
  induction d with
  | nil => simp [dictInsert, lookup?]
  | cons a d ih =>
    by_cases h : a.1 = k
    · simp [dictInsert, h, lookup?]
    · simp [dictInsert, h, lookup?, ih]

theorem lookup_dictInsert_ne (d : List (String × String)) (k k' v : String)
    (h : k' ≠ k) : lookup? (dictInsert d k' v) k = lookup? d k := by
  induction d with
  | nil => simp [dictInsert, lookup?, h]
  | cons a d ih =>
    by_cases ha : a.1 = k'
    · have hak : ¬ a.1 = k := by rw [ha]; exact h
      simp only [dictInsert, if_pos ha, lookup?, if_neg h, if_neg hak]
    · by_cases hk : a.1 = k
      · simp only [dictInsert, if_neg ha, lookup?, if_pos hk]
      · simp only [dictInsert, if_neg ha, lookup?, if_neg hk]
        exact ih

theorem lookup_foldl (l d : List (String × String)) (k : String) :
    lookup? (l.foldl lowerNonEmptyStep d) k =
      l.foldl
        (fun acc kv => if kv.2 ≠ "" ∧ lowerStr kv.1 = k then some kv.2 else acc)
        (lookup? d k) := by
  induction l generalizing d with
  | nil => rfl
  | cons kv t ih =>
    rw [List.foldl_cons, List.foldl_cons, ih]
    congr 1
    unfold lowerNonEmptyStep
    by_cases h2 : kv.2 = ""
    · simp [h2]
    · by_cases hk : lowerStr kv.1 = k
      · simp [h2, hk, lookup_dictInsert_self]
      · simp [h2, hk, lookup_dictInsert_ne _ _ _ _ hk]

/-- The control-key value a normalization reads is the last non-empty
value among the case-insensitive occurrences of the key. -/
theorem lookup_lowerNonEmpty (raw : List (String × String)) (k : String) :
    lookup? (lowerNonEmpty raw) k = lastValueFor raw k := by
  unfold lowerNonEmpty lastValueFor
  rw [lookup_foldl]
  rfl

theorem lastValueFor_of_no_key (raw : List (String × String)) (k : String)
    (h : ∀ kv ∈ raw, lowerStr kv.1 ≠ k) : lastValueFor raw k = none := by
  unfold lastValueFor
  generalize none = acc
  induction raw generalizing acc with
  | nil => rfl
  | cons kv t ih =>
    rw [List.foldl_cons]
    have hkv : lowerStr kv.1 ≠ k := h kv (List.mem_cons_self kv t)
    rw [if_neg (by intro hc; exact hkv hc.2)]
    exact ih (fun a ha => h a (List.mem_cons_of_mem _ ha)) acc

theorem keys_dictInsert (d : List (String × String)) (k v : String) :
    (dictInsert d k v).map Prod.fst =
      if k ∈ d.map Prod.fst then d.map Prod.fst else d.map Prod.fst ++ [k] := by
  induction d with
  | nil => simp [dictInsert]
  | cons a d ih =>
    by_cases h : a.1 = k
    · simp [dictInsert, h]
    · have h' : ¬ k = a.1 := fun hc => h hc.symm
      by_cases h2 : k ∈ d.map Prod.fst
      · simp [dictInsert, h, ih, h2, List.mem_cons, h']
      · simp [dictInsert, h, ih, h2, List.mem_cons, h']

theorem dictInsert_values (d : List (String × String)) (k v : String)
    (hd : ∀ kv ∈ d, kv.2 ≠ "") (hv : v ≠ "") :
    ∀ kv ∈ dictInsert d k v, kv.2 ≠ "" := by
  induction d with
  | nil =>
    intro kv hkv
    simp only [dictInsert, List.mem_singleton] at hkv
    rw [hkv]
    exact hv
  | cons a d ih =>
    intro kv hkv
    by_cases h : a.1 = k
    · simp only [dictInsert, if_pos h] at hkv
      rcases List.mem_cons.mp hkv with rfl | hm
      · exact hv
      · exact hd kv (List.mem_cons_of_mem _ hm)
    · simp only [dictInsert, if_neg h] at hkv
      rcases List.mem_cons.mp hkv with rfl | hm
      · exact hd kv (List.mem_cons_self _ _)
      · exact ih (fun b hb => hd b (List.mem_cons_of_mem _ hb)) kv hm

theorem lowerNonEmpty_values (raw : List (String × String)) :
    ∀ kv ∈ lowerNonEmpty raw, kv.2 ≠ "" := by
  have aux : ∀ (l d : List (String × String)), (∀ kv ∈ d, kv.2 ≠ "") →
      ∀ kv ∈ l.foldl lowerNonEmptyStep d, kv.2 ≠ "" := by
    intro l
    induction l with
    | nil => intro d hd; exact hd
    | cons a t ih =>
      intro d hd
      rw [List.foldl_cons]
      apply ih
      unfold lowerNonEmptyStep
      by_cases h2 : a.2 = ""
      · rw [if_pos h2]; exact hd
      · rw [if_neg h2]; exact dictInsert_values d _ _ hd h2
  exact aux raw [] (by intro kv hkv; cases hkv)

theorem nodup_keys_dictInsert (d : List (String × String)) (k v : String)
    (h : (d.map Prod.fst).Nodup) : ((dictInsert d k v).map Prod.fst).Nodup := by
  rw [keys_dictInsert]
  by_cases h2 : k ∈ d.map Prod.fst
  · rw [if_pos h2]; exact h
  · rw [if_neg h2]
    simp only [List.nodup_append, List.nodup_singleton, true_and, h, and_true]
    intro a ha hc
    rw [List.mem_singleton.mp hc] at ha
    exact h2 ha

theorem nodup_keys_lowerNonEmpty (raw : List (String × String)) :
    ((lowerNonEmpty raw).map Prod.fst).Nodup := by
  have aux : ∀ (l d : List (String × String)), (d.map Prod.fst).Nodup →
      ((l.foldl lowerNonEmptyStep d).map Prod.fst).Nodup := by
    intro l
    induction l with
    | nil => intro d hd; exact hd
    | cons a t ih =>
      intro d hd
      rw [List.foldl_cons]
      apply ih
      unfold lowerNonEmptyStep
      by_cases h2 : a.2 = ""
      · rw [if_pos h2]; exact hd
      · rw [if_neg h2]; exact nodup_keys_dictInsert d _ _ hd
  exact aux raw [] List.nodup_nil

theorem lookup_of_mem (d : List (String × String)) (kv : String × String)
    (h : kv ∈ d) (hnd : (d.map Prod.fst).Nodup) : lookup? d kv.1 = some kv.2 := by
  induction d with
  | nil => cases h
  | cons a d ih =>
    rcases List.mem_cons.mp h with rfl | hm
    · simp [lookup?]
    · have hnd' := hnd
      rw [List.map_cons, List.nodup_cons] at hnd'
      have ha : ¬ a.1 = kv.1 := by
        intro hc
        exact hnd'.1 (hc ▸ List.mem_map_of_mem Prod.fst hm)
      simp only [lookup?, if_neg ha]
      exact ih hm hnd'.2

theorem buildFields_mem (p : String → ParseOutcome)
    (l : List (String × String)) (ys : List QA)
    (h : buildFields p l = Except.ok ys) :
    ∀ y ∈ ys, ∃ kv ∈ l, y.question = kv.1 ∧
      parse_date p kv.1 kv.2 = Except.ok y.answer := by
  induction l generalizing ys with
  | nil =>
    simp only [buildFields, Except.ok.injEq] at h
    rw [← h]
    intro y hy
    cases hy
  | cons kv t ih =>
    cases hpd : parse_date p kv.1 kv.2 with
    | error e =>
      rw [buildFields, hpd] at h
      cases h
    | ok a =>
      cases hbt : buildFields p t with
      | error e =>
        rw [buildFields, hpd, hbt] at h
        cases h
      | ok rest =>
        simp only [buildFields, hpd, hbt, Except.ok.injEq] at h
        rw [← h]
        intro y hy
        rcases List.mem_cons.mp hy with rfl | hm
        · exact ⟨kv, List.mem_cons_self _ _, rfl, hpd⟩
        · obtain ⟨kv', hkv', hq, hp⟩ := ih rest hbt y hm
          exact ⟨kv', List.mem_cons_of_mem _ hkv', hq, hp⟩

theorem buildFields_questions (p : String → ParseOutcome)
    (l : List (String × String)) (ys : List QA)
    (h : buildFields p l = Except.ok ys) :
    ys.map QA.question = l.map Prod.fst := by
  induction l generalizing ys with
  | nil =>
    simp only [buildFields, Except.ok.injEq] at h
    rw [← h]
    rfl
  | cons kv t ih =>
    cases hpd : parse_date p kv.1 kv.2 with
    | error e =>
      rw [buildFields, hpd] at h
      cases h
    | ok a =>
      cases hbt : buildFields p t with
      | error e =>
        rw [buildFields, hpd, hbt] at h
        cases h
      | ok rest =>
        simp only [buildFields, hpd, hbt, Except.ok.injEq] at h
        rw [← h, List.map_cons, List.map_cons, ih rest hbt]

theorem parse_date_total (p : String → ParseOutcome) (q s : String)
    (h : ∀ e, p s ≠ ParseOutcome.otherError e) :
    ∃ a, parse_date p q s = Except.ok a := by
  unfold parse_date
  cases hp : p s with
  | ok d =>
    dsimp only
    by_cases hq : hourPrompt q
    · rw [if_pos hq]; exact ⟨_, rfl⟩
    · rw [if_neg hq]; exact ⟨_, rfl⟩
  | parserError => exact ⟨s, rfl⟩
  | otherError e => exact absurd hp (h e)

theorem buildFields_total (p : String → ParseOutcome) (l : List (String × String))
    (h : ∀ kv ∈ l, ∀ e, p kv.2 ≠ ParseOutcome.otherError e) :
    ∃ ys, buildFields p l = Except.ok ys := by
  induction l with
  | nil => exact ⟨[], rfl⟩
  | cons kv t ih =>
    obtain ⟨ys, hys⟩ := ih (fun a ha e => h a (List.mem_cons_of_mem _ ha) e)
    obtain ⟨a, ha⟩ := parse_date_total p kv.1 kv.2 (h kv (List.mem_cons_self _ _))
    exact ⟨QA.mk kv.1 a :: ys, by simp only [buildFields, ha, hys]⟩

theorem normalize_eq_ok {p : String → ParseOutcome}
    {raw : List (String × String)} {r : Form_Data}
    (h : normalize p raw = Except.ok r) :
    ∃ e v fs, lookup? (lowerNonEmpty raw) "email address" = some e ∧
      lookup? (lowerNonEmpty raw) "reviewed" = some v ∧
      buildFields p ((lowerNonEmpty raw).filter (fun kv => kv.1 ∉ excludedKeys)) =
        Except.ok fs ∧
      r = Form_Data.mk e (lowerStr v == "approved") fs := by
  cases h1 : lookup? (lowerNonEmpty raw) "email address" with
  | none =>
    simp only [normalize, h1] at h
    exact Except.noConfusion h
  | some e =>
    cases h2 : lookup? (lowerNonEmpty raw) "reviewed" with
    | none =>
      simp only [normalize, h1, h2] at h
      exact Except.noConfusion h
    | some v =>
      cases h3 : buildFields p ((lowerNonEmpty raw).filter
          (fun kv => kv.1 ∉ excludedKeys)) with
      | error e' =>
        simp only [normalize, h1, h2, h3] at h
        exact Except.noConfusion h
      | ok fs =>
        simp only [normalize, h1, h2, h3, Except.ok.injEq] at h
        exact ⟨e, v, fs, rfl, rfl, rfl, h.symm⟩

theorem normalize_eq_of (p : String → ParseOutcome) (raw : List (String × String))
    (e v : String) (fs : List QA)
    (h1 : lookup? (lowerNonEmpty raw) "email address" = some e)
    (h2 : lookup? (lowerNonEmpty raw) "reviewed" = some v)
    (h3 : buildFields p ((lowerNonEmpty raw).filter (fun kv => kv.1 ∉ excludedKeys)) =
      Except.ok fs) :
    normalize p raw = Except.ok (Form_Data.mk e (lowerStr v == "approved") fs) := by
  simp only [normalize, h1, h2, h3]

theorem keys_foldl (l d : List (String × String)) :
    (l.foldl lowerNonEmptyStep d).map Prod.fst =
      ((l.filter (fun kv => kv.2 ≠ "")).map (fun kv => lowerStr kv.1)).foldl
        (fun acc x => if x ∈ acc then acc else acc ++ [x]) (d.map Prod.fst) := by
  induction l generalizing d with
  | nil => rfl
  | cons kv t ih =>
    rw [List.foldl_cons]
    by_cases h2 : kv.2 = ""
    · have hf : (kv :: t).filter (fun kv => kv.2 ≠ "") =
          t.filter (fun kv => kv.2 ≠ "") := by
        simp [List.filter_cons, h2]
      have hs : lowerNonEmptyStep d kv = d := by
        unfold lowerNonEmptyStep
        rw [if_pos h2]
      rw [hf, hs]
      exact ih d
    · have hf : (kv :: t).filter (fun kv => kv.2 ≠ "") =
          kv :: t.filter (fun kv => kv.2 ≠ "") := by
        simp [List.filter_cons, h2]
      have hs : lowerNonEmptyStep d kv = dictInsert d (lowerStr kv.1) kv.2 := by
        unfold lowerNonEmptyStep
        rw [if_neg h2]
      rw [hf, hs, List.map_cons, List.foldl_cons, ih]
      congr 1
      rw [keys_dictInsert]

/-- The keys of the lowered dict are the lowercased keys of the non-empty
raw entries, first occurrences kept in order. -/
theorem keys_lowerNonEmpty (raw : List (String × String)) :
    (lowerNonEmpty raw).map Prod.fst =
      firstDedup ((raw.filter (fun kv => kv.2 ≠ "")).map (fun kv => lowerStr kv.1)) := by
  unfold lowerNonEmpty firstDedup
  rw [keys_foldl]
  rfl

theorem foldl_filter_nonempty (l d : List (String × String)) :
    (l.filter (fun kv => kv.2 ≠ "")).foldl lowerNonEmptyStep d =
      l.foldl lowerNonEmptyStep d := by
  induction l generalizing d with
  | nil => rfl
  | cons kv t ih =>
    by_cases h2 : kv.2 = ""
    · have hf : (kv :: t).filter (fun kv => kv.2 ≠ "") =
          t.filter (fun kv => kv.2 ≠ "") := by simp [List.filter_cons, h2]
      have hs : lowerNonEmptyStep d kv = d := by
        unfold lowerNonEmptyStep; rw [if_pos h2]
      rw [hf, List.foldl_cons, hs, ih]
    · have hf : (kv :: t).filter (fun kv => kv.2 ≠ "") =
          kv :: t.filter (fun kv => kv.2 ≠ "") := by simp [List.filter_cons, h2]
      rw [hf, List.foldl_cons, List.foldl_cons, ih]

theorem lowerNonEmpty_filter (raw : List (String × String)) :
    lowerNonEmpty (raw.filter (fun kv => kv.2 ≠ "")) = lowerNonEmpty raw := by
  unfold lowerNonEmpty
  exact foldl_filter_nonempty raw []

/-- Normalization only depends on the raw submission with its
empty-valued entries removed. -/
theorem normalize_filter (p : String → ParseOutcome) (raw : List (String × String)) :
    normalize p (raw.filter (fun kv => kv.2 ≠ "")) = normalize p raw := by
  unfold normalize
  rw [lowerNonEmpty_filter]

theorem foldl_map_lower (l d : List (String × String)) :
    l.foldl (fun acc kv => lowerNonEmptyStep acc (lowerStr kv.1, kv.2)) d =
      l.foldl lowerNonEmptyStep d := by
  induction l generalizing d with
  | nil => rfl
  | cons kv t ih =>
    rw [List.foldl_cons, List.foldl_cons, ih]
    congr 1
    unfold lowerNonEmptyStep
    by_cases h2 : kv.2 = ""
    · rw [if_pos h2, if_pos h2]
    · rw [if_neg h2, if_neg h2]
      rw [lowerStr_idem]

theorem lowerNonEmpty_map_lower (raw : List (String × String)) :
    lowerNonEmpty (raw.map (fun kv => (lowerStr kv.1, kv.2))) = lowerNonEmpty raw := by
  unfold lowerNonEmpty
  rw [List.foldl_map]
  exact foldl_map_lower raw []

/-- Normalization is unchanged when every key is replaced by its
lowercased form. -/
theorem normalize_map_lower (p : String → ParseOutcome) (raw : List (String × String)) :
    normalize p (raw.map (fun kv => (lowerStr kv.1, kv.2))) = normalize p raw := by
  unfold normalize
  rw [lowerNonEmpty_map_lower]

/-- Helper: `parse_date` propagates any parser exception other than the
dedicated parse error. -/
theorem parse_date_otherError (p : String → ParseOutcome) (q s ex : String)
    (h : p s = ParseOutcome.otherError ex) :
    parse_date p q s = Except.error (PyError.exc ex) := by
  simp only [parse_date, h]

/-- C1 counterexample: a submission whose `email address` key carries the
empty string is normalized to a missing-field (`KeyError`) failure for
that key, contrary to the claim that empty-valued entries are never
treated as missing-control-field errors. -/
theorem c1_empty_control_raises :
    normalize dateutilSpec [("email address", ""), ("reviewed", "approved")] =
      Except.error (PyError.keyError "email address") := by
  decide

/-- C1 (amended): entries whose raw answer is the empty string are
dropped before normalization — normalizing a submission equals
normalizing it with its empty-valued entries removed, so they never
reach the answers — but as a consequence a control key whose value is
the empty string is treated exactly like an absent key and raises the
missing-field error for that key. -/
theorem c1_empty_values_dropped (p : String → ParseOutcome)
    (raw : List (String × String)) :
    normalize p raw = normalize p (raw.filter (fun kv => kv.2 ≠ "")) ∧
      normalize dateutilSpec [("Email Address", ""), ("Reviewed", "Approved")] =
        Except.error (PyError.keyError "email address") := by
  constructor
  · exact (normalize_filter p raw).symm
  · decide

/-- C3: a raw submission with no key case-insensitively equal to
`email address` normalizes to the missing-field (`KeyError`) failure for
that key, never to a normalized record. -/
theorem c3_missing_email_errors (p : String → ParseOutcome)
    (raw : List (String × String))
    (h : ∀ kv ∈ raw, lowerStr kv.1 ≠ "email address") :
    normalize p raw = Except.error (PyError.keyError "email address") := by
  have hl : lookup? (lowerNonEmpty raw) "email address" = none := by
    rw [lookup_lowerNonEmpty]
    exact lastValueFor_of_no_key raw _ h
  simp only [normalize, hl]

/-- Witness for C3 at a concrete submission lacking any email key. -/
theorem c3_missing_email_witness :
    normalize dateutilSpec [("Reviewed", "Approved"), ("Name", "Bob")] =
      Except.error (PyError.keyError "email address") :=
  c3_missing_email_errors dateutilSpec
    [("Reviewed", "Approved"), ("Name", "Bob")] (by decide)

/-- C5: normalization is invariant under the casing of keys — replacing
every key by its lowercased form yields the identical result — and the
spec's concrete pair of submissions normalize identically. -/
theorem c5_key_casing_invariant :
    (∀ (p : String → ParseOutcome) (raw : List (String × String)),
      normalize p (raw.map (fun kv => (lowerStr kv.1, kv.2))) = normalize p raw) ∧
      normalize dateutilSpec [("Email Address", "a@b.com"), ("Reviewed", "Approved")] =
        normalize dateutilSpec [("email address", "a@b.com"), ("reviewed", "approved")] := by
  constructor
  · exact normalize_map_lower
  · decide

/-- C9: posting the spec's end-to-end submission to the update endpoint
returns HTTP 200 with body message `email has been sent` and schedules
exactly one outbound message to `x@y.com` whose template payload is the
single question/answer pair plus `approved = true`. -/
theorem c9_end_to_end :
    form_update dateutilSpec
      [("Email address", "x@y.com"), ("Reviewed", "Approved"),
       ("Timestamp", "t"), ("Favorite subject", "Math")] =
    Except.ok (HttpResponse.mk 200 "email has been sent",
      [ScheduledTask.mk
        (MessageSchema.mk "Fastapi mail module" ["x@y.com"]
          [QA.mk "favorite subject" "Math"] true true)
        "email_template.html"]) := by
  decide

/-- C2 counterexample: a submission containing non-empty `email address`
and `reviewed` values but also an extra field whose huge numeric value
makes the external date parser raise a non-parse-error exception; the
exception escapes, so normalization does not return a record. -/
theorem c2_overflow_escapes :
    lastValueFor
        [("email address", "a@b.com"), ("reviewed", "ok"),
         ("n", "99999999999999999999")] "email address" = some "a@b.com" ∧
      lastValueFor
        [("email address", "a@b.com"), ("reviewed", "ok"),
         ("n", "99999999999999999999")] "reviewed" = some "ok" ∧
      normalize dateutilSpec
        [("email address", "a@b.com"), ("reviewed", "ok"),
         ("n", "99999999999999999999")] =
        Except.error (PyError.exc "OverflowError") := by
  refine ⟨by decide, by decide, by decide⟩

/-- C2 (amended): for a raw submission holding case-insensitive
`email address` and `reviewed` keys with non-empty values, and whose
retained non-control values make the external date parser raise nothing
but its dedicated parse error, normalization returns a record whose
email is the value stored under the `email address` key and whose
approved field is the boolean derived from the `reviewed` value. -/
theorem c2_success_when_no_exception (p : String → ParseOutcome)
    (raw : List (String × String)) (e v : String)
    (hE : lastValueFor raw "email address" = some e)
    (hR : lastValueFor raw "reviewed" = some v)
    (hP : ∀ kv ∈ lowerNonEmpty raw, kv.1 ∉ excludedKeys →
      ∀ ex, p kv.2 ≠ ParseOutcome.otherError ex) :
    ∃ r, normalize p raw = Except.ok r ∧ r.email = e ∧
      r.approved = (lowerStr v == "approved") := by
  have h1 : lookup? (lowerNonEmpty raw) "email address" = some e := by
    rw [lookup_lowerNonEmpty]; exact hE
  have h2 : lookup? (lowerNonEmpty raw) "reviewed" = some v := by
    rw [lookup_lowerNonEmpty]; exact hR
  obtain ⟨fs, h3⟩ := buildFields_total p
    ((lowerNonEmpty raw).filter (fun kv => kv.1 ∉ excludedKeys))
    (by
      intro kv hkv ex
      have hm := List.mem_filter.mp hkv
      exact hP kv hm.1 (of_decide_eq_true hm.2) ex)
  exact ⟨Form_Data.mk e (lowerStr v == "approved") fs,
    normalize_eq_of p raw e v fs h1 h2 h3, rfl, rfl⟩

/-- Witness for C2's amended theorem at a concrete submission whose only
entries are the two control keys. -/
theorem c2_success_witness :
    ∃ r, normalize dateutilSpec
        [("Email Address", "a@b.com"), ("Reviewed", "Approved")] = Except.ok r ∧
      r.email = "a@b.com" ∧ r.approved = (lowerStr "Approved" == "approved") := by
  apply c2_success_when_no_exception dateutilSpec
    [("Email Address", "a@b.com"), ("Reviewed", "Approved")] "a@b.com" "Approved"
    (by decide) (by decide)
  intro kv hkv hni ex
  have hL : lowerNonEmpty [("Email Address", "a@b.com"), ("Reviewed", "Approved")] =
      [("email address", "a@b.com"), ("reviewed", "Approved")] := by decide
  rw [hL] at hkv
  rcases List.mem_cons.mp hkv with rfl | hkv'
  · exact absurd (by decide) hni
  · rcases List.mem_cons.mp hkv' with rfl | hkv''
    · exact absurd (by decide) hni
    · cases hkv''

/-- C4: the approved field of a successfully normalized record is true
exactly when the value stored under the case-insensitive `reviewed` key
lowercases to `approved`; in particular `Approved`, `APPROVED` and
`approved` yield an approved record and `Pending` does not. -/
theorem c4_approved_iff :
    (∀ (p : String → ParseOutcome) (raw : List (String × String))
      (r : Form_Data) (v : String),
      normalize p raw = Except.ok r → lastValueFor raw "reviewed" = some v →
      (r.approved = true ↔ lowerStr v = "approved")) ∧
      normalize dateutilSpec [("email address", "a@b.com"), ("reviewed", "Approved")] =
        Except.ok (Form_Data.mk "a@b.com" true []) ∧
      normalize dateutilSpec [("email address", "a@b.com"), ("reviewed", "APPROVED")] =
        Except.ok (Form_Data.mk "a@b.com" true []) ∧
      normalize dateutilSpec [("email address", "a@b.com"), ("reviewed", "approved")] =
        Except.ok (Form_Data.mk "a@b.com" true []) ∧
      normalize dateutilSpec [("email address", "a@b.com"), ("reviewed", "Pending")] =
        Except.ok (Form_Data.mk "a@b.com" false []) := by
  refine ⟨?_, by decide, by decide, by decide, by decide⟩
  intro p raw r v h hv
  obtain ⟨e, v', fs, h1, h2, h3, hr⟩ := normalize_eq_ok h
  rw [lookup_lowerNonEmpty, hv, Option.some.injEq] at h2
  rw [hr, ← h2]
  simp

/-- Witness for C4's conditional part at a concrete approved submission. -/
theorem c4_approved_witness :
    (Form_Data.mk "a@b.com" true []).approved = true ↔
      lowerStr "Approved" = "approved" :=
  c4_approved_iff.1 dateutilSpec
    [("email address", "a@b.com"), ("reviewed", "Approved")]
    (Form_Data.mk "a@b.com" true []) "Approved" (by decide) (by decide)

/-- C6: in every successfully normalized record no answer entry carries
a control question (`email address`, `reviewed`, `timestamp`), and every
entry originates from a non-empty raw answer, rendered by the answer
formatter; the spec's concrete submission with an empty `Favorite color`
answer yields an empty answers list. -/
theorem c6_answers_invariants :
    (∀ (p : String → ParseOutcome) (raw : List (String × String)) (r : Form_Data),
      normalize p raw = Except.ok r → ∀ a ∈ r.fields,
        a.question ∉ excludedKeys ∧
        ∃ v, v ≠ "" ∧ lastValueFor raw a.question = some v ∧
          parse_date p a.question v = Except.ok a.answer) ∧
      normalize dateutilSpec
        [("Email Address", "a@b.com"), ("Reviewed", "Approved"), ("Favorite color", "")] =
        Except.ok (Form_Data.mk "a@b.com" true []) := by
  refine ⟨?_, by decide⟩
  intro p raw r h a ha
  obtain ⟨e, v, fs, h1, h2, h3, hr⟩ := normalize_eq_ok h
  rw [hr] at ha
  obtain ⟨kv, hkv, hq, hpd⟩ := buildFields_mem p _ fs h3 a ha
  have hm := List.mem_filter.mp hkv
  have hni : kv.1 ∉ excludedKeys := of_decide_eq_true hm.2
  have hval : kv.2 ≠ "" := lowerNonEmpty_values raw kv hm.1
  have hlv : lastValueFor raw kv.1 = some kv.2 := by
    rw [← lookup_lowerNonEmpty]
    exact lookup_of_mem _ kv hm.1 (nodup_keys_lowerNonEmpty raw)
  rw [hq]
  exact ⟨hni, kv.2, hval, hlv, hpd⟩

/-- Witness for C6's conditional part at a concrete submission with one
retained answer. -/
theorem c6_answers_witness :
    (QA.mk "favorite subject" "Math").question ∉ excludedKeys ∧
      ∃ v, v ≠ "" ∧
        lastValueFor
          [("Email address", "x@y.com"), ("Reviewed", "Approved"),
           ("Favorite subject", "Math")] (QA.mk "favorite subject" "Math").question =
          some v ∧
        parse_date dateutilSpec (QA.mk "favorite subject" "Math").question v =
          Except.ok (QA.mk "favorite subject" "Math").answer :=
  c6_answers_invariants.1 dateutilSpec
    [("Email address", "x@y.com"), ("Reviewed", "Approved"), ("Favorite subject", "Math")]
    (Form_Data.mk "x@y.com" true [QA.mk "favorite subject" "Math"])
    (by decide) (QA.mk "favorite subject" "Math") (by decide)

/-- C7: the answer formatter returns the raw answer unchanged when the
parser fails with its parse error; on success it renders hour and minute
as `H:M` when the question matches the hour heuristic and day, month and
year as `D/M/Y` otherwise, with no zero-padding; the spec's three
concrete examples behave as stated. -/
theorem c7_parse_date_spec (p : String → ParseOutcome) (q s : String) (d : DateTime) :
    (p s = ParseOutcome.parserError → parse_date p q s = Except.ok s) ∧
    (p s = ParseOutcome.ok d → hourPrompt q = true →
      parse_date p q s = Except.ok (toString d.hour ++ ":" ++ toString d.minute)) ∧
    (p s = ParseOutcome.ok d → hourPrompt q = false →
      parse_date p q s =
        Except.ok (toString d.day ++ "/" ++ toString d.month ++ "/" ++ toString d.year)) ∧
    parse_date dateutilSpec "Start Date" "2024-03-05" = Except.ok "5/3/2024" ∧
    parse_date dateutilSpec "Meeting Hour" "2024-03-05T14:30:00" = Except.ok "14:30" ∧
    parse_date dateutilSpec "Favorite number" "seven" = Except.ok "seven" := by
  refine ⟨?_, ?_, ?_, by decide, by decide, by decide⟩
  · intro h
    simp only [parse_date, h]
  · intro h hq
    simp only [parse_date, h, hq, if_true]
  · intro h hq
    simp only [parse_date, h, hq, Bool.false_eq_true, if_false]

/-- Witness for C7's conditional parts: a pass-through on a non-date
answer and an hour-formatted answer, both through the modelled parser. -/
theorem c7_parse_date_witness :
    parse_date dateutilSpec "Favorite number" "gibberish" = Except.ok "gibberish" ∧
      parse_date dateutilSpec "Hora de inicio" "2024-03-05T09:05:00" =
        Except.ok "9:5" :=
  ⟨(c7_parse_date_spec dateutilSpec "Favorite number" "gibberish"
      (DateTime.mk 0 0 0 0 0 0)).1 (by decide),
   (c7_parse_date_spec dateutilSpec "Hora de inicio" "2024-03-05T09:05:00"
      (DateTime.mk 2024 3 5 9 5 0)).2.1 (by decide) (by decide)⟩

/-- C8 counterexample: two raw keys differing only in case collapse to a
single dict entry, so the output question sequence has one `q` while the
claim's sequence of lowercased non-excluded non-empty keys has two. -/
theorem c8_duplicate_keys_cex :
    normalize dateutilSpec
        [("email address", "a@b.com"), ("reviewed", "yes"), ("Q", "v1"), ("q", "v2")] =
      Except.ok (Form_Data.mk "a@b.com" false [QA.mk "q" "v2"]) ∧
      (([("email address", "a@b.com"), ("reviewed", "yes"), ("Q", "v1"),
          ("q", "v2")].filter (fun kv => kv.2 ≠ "")).map
            (fun kv => lowerStr kv.1)).filter (fun k => k ∉ excludedKeys) =
        ["q", "q"] ∧
      [QA.mk "q" "v2"].map QA.question ≠ ["q", "q"] := by
  refine ⟨by decide, by decide, by decide⟩

theorem map_fst_filter (d : List (String × String)) :
    (d.filter (fun kv => kv.1 ∉ excludedKeys)).map Prod.fst =
      (d.map Prod.fst).filter (fun k => k ∉ excludedKeys) := by
  induction d with
  | nil => rfl
  | cons a d ih =>
    by_cases h : a.1 ∈ excludedKeys
    · have hb : decide (a.1 ∉ excludedKeys) = false := by simp [h]
      simp only [List.filter_cons, List.map_cons, hb, Bool.false_eq_true, if_false]
      exact ih
    · have hb : decide (a.1 ∉ excludedKeys) = true := decide_eq_true h
      simp only [List.filter_cons, List.map_cons, hb, if_true]
      rw [ih]

/-- C8 (amended): the question sequence of a successfully normalized
record equals the lowercased non-empty keys of the raw submission in
original iteration order, with later duplicates of an already-seen
lowercased key collapsed into its first occurrence, and with the control
keys excluded. -/
theorem c8_question_order (p : String → ParseOutcome)
    (raw : List (String × String)) (r : Form_Data)
    (h : normalize p raw = Except.ok r) :
    r.fields.map QA.question =
      (firstDedup ((raw.filter (fun kv => kv.2 ≠ "")).map
        (fun kv => lowerStr kv.1))).filter (fun k => k ∉ excludedKeys) := by
  obtain ⟨e, v, fs, h1, h2, h3, hr⟩ := normalize_eq_ok h
  rw [hr]
  have hq := buildFields_questions p _ fs h3
  rw [show (Form_Data.mk e (lowerStr v == "approved") fs).fields = fs from rfl,
    hq, map_fst_filter, keys_lowerNonEmpty]

/-- Witness for C8's amended theorem at the end-to-end submission. -/
theorem c8_question_order_witness :
    [QA.mk "favorite subject" "Math"].map QA.question =
      (firstDedup (([("Email address", "x@y.com"), ("Reviewed", "Approved"),
          ("Timestamp", "t"), ("Favorite subject", "Math")].filter
            (fun kv => kv.2 ≠ "")).map (fun kv => lowerStr kv.1))).filter
        (fun k => k ∉ excludedKeys) :=
  c8_question_order dateutilSpec
    [("Email address", "x@y.com"), ("Reviewed", "Approved"),
     ("Timestamp", "t"), ("Favorite subject", "Math")]
    (Form_Data.mk "x@y.com" true [QA.mk "favorite subject" "Math"]) (by decide)

/-- C10: the answer formatter treats only the parser's dedicated parse
error as not-date-like; any other parser exception is not caught: it
escapes the formatter and propagates out of normalization. -/
theorem c10_other_exception_propagates (p : String → ParseOutcome)
    (q s ex : String) (h : p s = ParseOutcome.otherError ex) :
    parse_date p q s = Except.error (PyError.exc ex) ∧
      (s ≠ "" → lowerStr q ∉ excludedKeys →
        normalize p [("email address", "a@b.com"), ("reviewed", "x"), (q, s)] =
          Except.error (PyError.exc ex)) := by
  refine ⟨parse_date_otherError p q s ex h, ?_⟩
  intro hs hq
  have hq1 : lowerStr q ≠ "email address" := by
    intro hc
    exact hq (by rw [hc]; decide)
  have hq2 : lowerStr q ≠ "reviewed" := by
    intro hc
    exact hq (by rw [hc]; decide)
  have hd : lowerNonEmpty [("email address", "a@b.com"), ("reviewed", "x"), (q, s)] =
      [("email address", "a@b.com"), ("reviewed", "x"), (lowerStr q, s)] := by
    unfold lowerNonEmpty
    rw [List.foldl_cons, List.foldl_cons, List.foldl_cons, List.foldl_nil]
    have s1 : lowerNonEmptyStep [] ("email address", "a@b.com") =
        [("email address", "a@b.com")] := by decide
    have s2 : lowerNonEmptyStep [("email address", "a@b.com")] ("reviewed", "x") =
        [("email address", "a@b.com"), ("reviewed", "x")] := by decide
    rw [s1, s2]
    unfold lowerNonEmptyStep
    rw [if_neg hs]
    simp only [dictInsert]
    rw [if_neg (fun hc => hq1 hc.symm), if_neg (fun hc => hq2 hc.symm)]
  have h1 : lookup? [("email address", "a@b.com"), ("reviewed", "x"), (lowerStr q, s)]
      "email address" = some "a@b.com" := by
    simp [lookup?]
  have h2 : lookup? [("email address", "a@b.com"), ("reviewed", "x"), (lowerStr q, s)]
      "reviewed" = some "x" := by
    simp [lookup?]
  have e1 : (decide (("email address" : String) ∉ excludedKeys)) = false := by decide
  have e2 : (decide (("reviewed" : String) ∉ excludedKeys)) = false := by decide
  have hdec : decide (lowerStr q ∉ excludedKeys) = true := decide_eq_true hq
  have hfil : [("email address", "a@b.com"), ("reviewed", "x"), (lowerStr q, s)].filter
      (fun kv => kv.1 ∉ excludedKeys) = [(lowerStr q, s)] := by
    simp only [List.filter_cons, List.filter_nil, e1, e2, hdec, if_true,
      Bool.false_eq_true, if_false]
  have hbf : buildFields p [(lowerStr q, s)] = Except.error (PyError.exc ex) := by
    simp only [buildFields]
    rw [parse_date_otherError p (lowerStr q) s ex h]
  simp only [normalize, hd, h1, h2, hfil, hbf]

/-- Witness for C10: the modelled parser overflows on a 20-digit numeral
and the exception escapes both the formatter and normalization. -/
theorem c10_other_exception_witness :
    parse_date dateutilSpec "Count" "99999999999999999999" =
        Except.error (PyError.exc "OverflowError") ∧
      normalize dateutilSpec
        [("email address", "a@b.com"), ("reviewed", "x"),
         ("Count", "99999999999999999999")] =
        Except.error (PyError.exc "OverflowError") := by
  have hmain := c10_other_exception_propagates dateutilSpec "Count"
    "99999999999999999999" "OverflowError" (by decide)
  exact ⟨hmain.1, hmain.2 (by decide) (by decide)⟩

end AutoEmail
